import Mathlib

/-!
Verification development for the reminder-notification engine of the
daily-task-reminder app.

The embedding follows the two source units that carry the algorithmic
content:

* `scheduleTaskReminder` and its helpers (notification helper module):
  permission gate, past-deadline gate, the three advance tiers, the main
  at-time notification and the five follow-ups, scheduled one by one
  against the external scheduler inside a single try/catch, returning
  only the main notification's id.
* `syncNotifications` / `clearNotificationMappings`
  (`src/hooks/use-task-notifications.ts`): the reconciliation pass over
  the module-level `notificationMap` ledger.

Time is modelled in integer milliseconds.  The JS float comparison
`hoursUntilReminder > 24` (with `hoursUntilReminder = s / 3600` computed
in IEEE doubles on an integer `s`) is equivalent to `s > 86400` because
correctly rounded division is monotone and the boundary value is exact;
the integer rendering below uses that form.  The external scheduler is a
function from events to `Option String`: `some h` is a returned handle,
`none` is a call that throws (which the source catches).
-/

namespace App

inductive Tier where
  | advance24
  | advance12
  | advance6
  | atTime
  | followUp
deriving DecidableEq, Repr

/-- One notification event handed to the external scheduler: tier,
fire offset in seconds from now, display title/body, and the payload
data (task id and title) carried in `content.data`. -/
structure NEvent where
  tier : Tier
  seconds : Int
  title : String
  body : String
  taskId : String
  taskTitle : String
deriving DecidableEq, Repr

/-- The advance-24h notification pushed when `hoursUntilReminder > 24`. -/
def adv24Event (tid title : String) (s : Int) : NEvent :=
  ⟨Tier.advance24, s - 86400, "📅 Upcoming Task Tomorrow",
    title ++ " is scheduled for tomorrow", tid, title⟩

/-- The advance-12h notification pushed when `hoursUntilReminder > 12`. -/
def adv12Event (tid title : String) (s : Int) : NEvent :=
  ⟨Tier.advance12, s - 43200, "⏳ Task in 12 Hours",
    title ++ " is coming up in 12 hours", tid, title⟩

/-- The advance-6h notification pushed when `hoursUntilReminder > 6`. -/
def adv6Event (tid title : String) (s : Int) : NEvent :=
  ⟨Tier.advance6, s - 21600, "⏰ Task in 6 Hours",
    title ++ " is coming up in 6 hours", tid, title⟩

/-- The main notification scheduled at the exact reminder offset. -/
def mainEvent (tid title : String) (s : Int) : NEvent :=
  ⟨Tier.atTime, s, "⏰ Task Reminder - NOW", title, tid, title⟩

/-- One follow-up notification at `secondsUntilReminder + interval`. -/
def followUpEvent (tid title : String) (s interval : Int) : NEvent :=
  ⟨Tier.followUp, s + interval, "🔔 Reminder: Still Pending", title, tid, title⟩

/-- `followUpIntervals = [120, 240, 360, 480, 600]` from the source. -/
def followUpIntervals : List Int := [120, 240, 360, 480, 600]

def followUpList (tid title : String) (s : Int) : List NEvent :=
  followUpIntervals.map (followUpEvent tid title s)

/-- The `advanceNotifications` array built by the three tier blocks.
Each block has the outer horizon test (`hoursUntilReminder > 24` etc.,
rendered over the integer second count) and the inner
`advanceSeconds > 0` recheck, both kept as in the source. -/
def advanceList (tid title : String) (s : Int) : List NEvent :=
  (if 86400 < s ∧ 0 < s - 86400 then [adv24Event tid title s] else []) ++
  (if 43200 < s ∧ 0 < s - 43200 then [adv12Event tid title s] else []) ++
  (if 21600 < s ∧ 0 < s - 21600 then [adv6Event tid title s] else [])

/-- Desired event set of one task, as `scheduleTaskReminder` computes it
after the permission gate: empty when the reminder is not strictly in the
future, otherwise the advance tiers followed by the main at-time event
and the five follow-ups.  `leadMs` is `reminderDate - now` in
milliseconds; `secondsUntilReminder` is its floor division by 1000. -/
def computeDesiredEvents (tid title : String) (leadMs : Int) : List NEvent :=
  if leadMs ≤ 0 then []
  else
    advanceList tid title (leadMs / 1000) ++
      mainEvent tid title (leadMs / 1000) :: followUpList tid title (leadMs / 1000)

/-- Outcome of one `scheduleTaskReminder` call: the value the function
returns (the main notification's id, or `null`), the schedule calls that
actually reached the external scheduler, in order, and the handles the
scheduler returned for the calls that succeeded. -/
structure SchedOutcome where
  retId : Option String
  calls : List NEvent
  handles : List String
deriving DecidableEq, Repr

/-- Sequentially awaited `scheduleNotificationAsync` calls over a list of
events.  A throwing call (`none`) is still issued but stops the loop;
the third component records whether every call succeeded. -/
def schedRun (sched : NEvent → Option String) :
    List NEvent → List NEvent × List String × Bool
  | [] => ([], [], true)
  | e :: es =>
    match sched e with
    | none => ([e], [], false)
    | some h =>
      let r := schedRun sched es
      (e :: r.1, h :: r.2.1, r.2.2)

/-- `scheduleTaskReminder` from the notification helper.  Permission gate
first, then the past-deadline gate, then the advance loop, the main
notification (whose id is the eventual return value) and the follow-up
loop.  The single surrounding try/catch means any throwing schedule call
makes the function return `null`, with no further calls issued. -/
def scheduleTaskReminder (sched : NEvent → Option String) (hasPermission : Bool)
    (tid title : String) (leadMs : Int) : SchedOutcome :=
  if hasPermission = true then
    if leadMs ≤ 0 then ⟨none, [], []⟩
    else
      let s := leadMs / 1000
      let adv := schedRun sched (advanceList tid title s)
      if adv.2.2 = true then
        match sched (mainEvent tid title s) with
        | none => ⟨none, adv.1 ++ [mainEvent tid title s], adv.2.1⟩
        | some mainId =>
          let fu := schedRun sched (followUpList tid title s)
          ⟨if fu.2.2 = true then some mainId else none,
            adv.1 ++ mainEvent tid title s :: fu.1,
            adv.2.1 ++ mainId :: fu.2.1⟩
      else ⟨none, adv.1, adv.2.1⟩
  else ⟨none, [], []⟩

/-- The module-level `notificationMap`: task id → the one notification id
stored for it, in insertion order (a JS `Map`). -/
abbrev Ledger := List (String × String)

def ledgerLookup (l : Ledger) (k : String) : Option String :=
  (l.find? (fun p => p.1 == k)).map (fun p => p.2)

/-- The slice of the task record the hook reads: id, title, the
reminder-enabled flag and the optional reminder instant (ms epoch). -/
structure Task where
  id : String
  title : String
  reminderEnabled : Bool
  reminderTime : Option Int
deriving DecidableEq, Repr

/-- `task.reminderEnabled && task.reminderTime` from the hook. -/
def eligibleTask (t : Task) : Bool :=
  t.reminderEnabled && t.reminderTime.isSome

/-- Millisecond lead time `reminderDate - now` for a task. -/
def leadOf (now : Int) (t : Task) : Int :=
  t.reminderTime.getD 0 - now

/-- First loop of `syncNotifications`: walk the task list, and for every
eligible task with no ledger entry call `scheduleTaskReminder`; a
non-null return value is inserted as a fresh ledger entry.  Returns the
updated ledger and the schedule calls issued to the external scheduler,
in order. -/
def phase1 (sched : NEvent → Option String) (perm : Bool) (now : Int) :
    Ledger → List Task → Ledger × List NEvent
  | l, [] => (l, [])
  | l, t :: ts =>
    if eligibleTask t = true then
      match ledgerLookup l t.id with
      | some _ => phase1 sched perm now l ts
      | none =>
        let o := scheduleTaskReminder sched perm t.id t.title (leadOf now t)
        let l2 :=
          match o.retId with
          | some nid => l ++ [(t.id, nid)]
          | none => l
        let r := phase1 sched perm now l2 ts
        (r.1, o.calls ++ r.2)
    else phase1 sched perm now l ts

/-- `tasks.find(t => t.id === taskId)` followed by the
`!task || !task.reminderEnabled || !task.reminderTime` test, negated:
whether a ledger key should be kept. -/
def taskActive (tasks : List Task) (tid : String) : Bool :=
  match tasks.find? (fun t => t.id == tid) with
  | some t => eligibleTask t
  | none => false

/-- Second loop of `syncNotifications`: delete every ledger entry whose
task is gone or ineligible and cancel its stored notification id.  The
cancel list preserves ledger order. -/
def phase2 (tasks : List Task) (l : Ledger) : Ledger × List String :=
  (l.filter (fun p => taskActive tasks p.1),
    (l.filter (fun p => !(taskActive tasks p.1))).map (fun p => p.2))

/-- Result of one reconciliation pass: the new ledger, the schedule calls
that reached the external scheduler and the cancel calls issued. -/
structure SyncResult where
  ledger : Ledger
  schedCalls : List NEvent
  cancelCalls : List String
deriving DecidableEq, Repr

/-- One `syncNotifications(tasks)` pass over ledger `l`. -/
def syncNotifications (sched : NEvent → Option String) (perm : Bool) (now : Int)
    (tasks : List Task) (l : Ledger) : SyncResult :=
  let p := phase1 sched perm now l tasks
  let q := phase2 tasks p.1
  ⟨q.1, p.2, q.2⟩

/-- `clearNotificationMappings`: `notificationMap.clear()` and nothing
else — the new ledger and the cancel calls issued (none). -/
def clearNotificationMappings (_l : Ledger) : Ledger × List String :=
  ([], [])

/-- Toggle `reminderEnabled` off for the task(s) with the given id. -/
def disableReminder (tasks : List Task) (tid : String) : List Task :=
  tasks.map (fun u => if u.id == tid then { u with reminderEnabled := false } else u)

/-- Delete the task(s) with the given id from the collection. -/
def removeTask (tasks : List Task) (tid : String) : List Task :=
  tasks.filter (fun u => !(u.id == tid))

/-- Overwrite the reminder instant of the task(s) with the given id. -/
def setReminderTime (tasks : List Task) (tid : String) (v : Int) : List Task :=
  tasks.map (fun u => if u.id == tid then { u with reminderTime := some v } else u)

theorem schedRun_mem (sched : NEvent → Option String) (evs : List NEvent) :
    ∀ e ∈ (schedRun sched evs).1, e ∈ evs := by
  induction evs with
  | nil => intro e he; simp [schedRun] at he
  | cons a as ih =>
    intro e he
    cases ha : sched a with
    | none =>
      simp only [schedRun, ha] at he
      simp at he
      simp [he]
    | some h =>
      simp only [schedRun, ha] at he
      rcases List.mem_cons.mp he with he | he
      · simp [he]
      · exact List.mem_cons_of_mem _ (ih e he)

theorem schedRun_ok (sched : NEvent → Option String) (evs : List NEvent) :
    (schedRun sched evs).2.2 = evs.all (fun e => (sched e).isSome) := by
  induction evs with
  | nil => simp [schedRun]
  | cons a as ih =>
    cases ha : sched a with
    | none => simp [schedRun, ha]
    | some h => simp [schedRun, ha, ih]

theorem schedRun_all_calls (sched : NEvent → Option String) (evs : List NEvent)
    (h : evs.all (fun e => (sched e).isSome) = true) :
    (schedRun sched evs).1 = evs := by
  induction evs with
  | nil => simp [schedRun]
  | cons a as ih =>
    simp only [List.all_cons, Bool.and_eq_true] at h
    cases ha : sched a with
    | none => rw [ha] at h; simp at h
    | some hv => simp [schedRun, ha, ih h.2]

theorem str_not_perm (sched : NEvent → Option String) (tid title : String)
    (leadMs : Int) :
    scheduleTaskReminder sched false tid title leadMs = ⟨none, [], []⟩ := by
  simp [scheduleTaskReminder]

theorem str_past (sched : NEvent → Option String) (perm : Bool) (tid title : String)
    (leadMs : Int) (h : leadMs ≤ 0) :
    scheduleTaskReminder sched perm tid title leadMs = ⟨none, [], []⟩ := by
  cases perm <;> simp [scheduleTaskReminder, h]

theorem str_total (sched : NEvent → Option String) (tid title : String)
    (leadMs : Int) (hlead : 0 < leadMs)
    (h : (computeDesiredEvents tid title leadMs).all (fun e => (sched e).isSome) = true) :
    ∃ m, sched (mainEvent tid title (leadMs / 1000)) = some m ∧
      (scheduleTaskReminder sched true tid title leadMs).retId = some m ∧
      (scheduleTaskReminder sched true tid title leadMs).calls =
        computeDesiredEvents tid title leadMs := by
  have hnp : ¬ leadMs ≤ 0 := by omega
  rw [computeDesiredEvents, if_neg hnp] at h
  simp only [List.all_append, List.all_cons, Bool.and_eq_true] at h
  obtain ⟨hadv, hmain, hfu⟩ := h
  obtain ⟨m, hm⟩ := Option.isSome_iff_exists.mp hmain
  refine ⟨m, hm, ?_⟩
  have hacalls := schedRun_all_calls sched (advanceList tid title (leadMs / 1000)) hadv
  have haok : (schedRun sched (advanceList tid title (leadMs / 1000))).2.2 = true := by
    rw [schedRun_ok]; exact hadv
  have hfcalls := schedRun_all_calls sched (followUpList tid title (leadMs / 1000)) hfu
  have hfok : (schedRun sched (followUpList tid title (leadMs / 1000))).2.2 = true := by
    rw [schedRun_ok]; exact hfu
  simp only [scheduleTaskReminder, if_pos rfl, if_neg hnp, haok, if_pos rfl, hm,
    hfok, if_pos rfl, hacalls, hfcalls, computeDesiredEvents]
  exact ⟨rfl, rfl⟩

theorem str_retId_isSome (sched : NEvent → Option String) (tid title : String)
    (leadMs : Int) (hlead : 0 < leadMs) :
    (scheduleTaskReminder sched true tid title leadMs).retId.isSome =
      (computeDesiredEvents tid title leadMs).all (fun e => (sched e).isSome) := by
  have hnp : ¬ leadMs ≤ 0 := by omega
  rw [computeDesiredEvents, if_neg hnp]
  simp only [scheduleTaskReminder, if_pos rfl, if_neg hnp]
  cases haok : (schedRun sched (advanceList tid title (leadMs / 1000))).2.2 with
  | false =>
    rw [schedRun_ok] at haok
    simp [haok]
  | true =>
    rw [schedRun_ok] at haok
    cases hm : sched (mainEvent tid title (leadMs / 1000)) with
    | none => simp [haok, hm]
    | some m =>
      cases hfok : (schedRun sched (followUpList tid title (leadMs / 1000))).2.2 with
      | false => rw [schedRun_ok] at hfok; simp [haok, hm, hfok]
      | true => rw [schedRun_ok] at hfok; simp [haok, hm, hfok]

theorem str_calls_mem (sched : NEvent → Option String) (perm : Bool)
    (tid title : String) (leadMs : Int) :
    ∀ e ∈ (scheduleTaskReminder sched perm tid title leadMs).calls,
      e ∈ computeDesiredEvents tid title leadMs := by
  intro e he
  cases perm with
  | false => rw [str_not_perm] at he; simp at he
  | true =>
    by_cases hp : leadMs ≤ 0
    · rw [str_past sched true tid title leadMs hp] at he
      simp at he
    · rw [computeDesiredEvents, if_neg hp]
      simp only [scheduleTaskReminder, if_pos rfl, if_neg hp] at he
      cases haok : (schedRun sched (advanceList tid title (leadMs / 1000))).2.2 with
      | false =>
        simp only [haok] at he
        simp at he
        exact List.mem_append_left _ (schedRun_mem sched _ e he)
      | true =>
        simp only [haok] at he
        cases hm : sched (mainEvent tid title (leadMs / 1000)) with
        | none =>
          simp only [hm] at he
          rcases List.mem_append.mp he with he | he
          · exact List.mem_append_left _ (schedRun_mem sched _ e he)
          · simp at he
            simp [he]
        | some m =>
          simp only [hm] at he
          rcases List.mem_append.mp he with he | he
          · exact List.mem_append_left _ (schedRun_mem sched _ e he)
          · rcases List.mem_cons.mp he with he | he
            · simp [he]
            · exact List.mem_append_right _
                (List.mem_cons_of_mem _ (schedRun_mem sched _ e he))

theorem ledgerLookup_cons (p : String × String) (ps : Ledger) (k : String) :
    ledgerLookup (p :: ps) k =
      if (p.1 == k) = true then some p.2 else ledgerLookup ps k := by
  simp only [ledgerLookup, List.find?]
  cases hp : (p.1 == k) <;> simp [hp]

theorem ledgerLookup_append_some (l1 l2 : Ledger) (k v : String)
    (h : ledgerLookup l1 k = some v) : ledgerLookup (l1 ++ l2) k = some v := by
  induction l1 with
  | nil => simp [ledgerLookup] at h
  | cons p ps ih =>
    rw [List.cons_append, ledgerLookup_cons]
    rw [ledgerLookup_cons] at h
    cases hp : (p.1 == k) with
    | true => simpa [hp] using h
    | false =>
      rw [hp] at h
      simp only [hp, Bool.false_eq_true, if_false] at h ⊢
      exact ih h

theorem ledgerLookup_filter (f : String → Bool) (l : Ledger) (k : String) :
    ledgerLookup (l.filter (fun p => f p.1)) k =
      if f k = true then ledgerLookup l k else none := by
  induction l with
  | nil => simp [ledgerLookup]
  | cons p ps ih =>
    by_cases hk : (p.1 == k) = true
    · have hpk : p.1 = k := beq_iff_eq.mp hk
      by_cases hf : f p.1 = true
      · have hfk : f k = true := hpk ▸ hf
        simp [List.filter_cons, hf, ledgerLookup_cons, hk, hfk]
      · have hfk : f k = false := by
          rw [← hpk]
          exact Bool.not_eq_true _ ▸ (by simpa using hf)
        simp [List.filter_cons, hf, ih, hfk]
    · by_cases hf : f p.1 = true
      · simp [List.filter_cons, hf, ledgerLookup_cons, hk, ih]
      · simp [List.filter_cons, hf, ih, ledgerLookup_cons, hk]

theorem find?_task_of_nodup (ts : List Task) (t : Task)
    (hnd : (ts.map Task.id).Nodup) (ht : t ∈ ts) :
    ts.find? (fun u => u.id == t.id) = some t := by
  induction ts with
  | nil => simp at ht
  | cons u us ih =>
    rw [List.map_cons, List.nodup_cons] at hnd
    rcases List.mem_cons.mp ht with rfl | ht
    · simp [List.find?]
    · have hne : (u.id == t.id) = false := by
        refine beq_eq_false_iff_ne.mpr fun hcontra => hnd.1 ?_
        exact hcontra ▸ List.mem_map_of_mem _ ht
      rw [List.find?]
      rw [hne]
      exact ih hnd.2 ht

theorem phase1_lookup_pres (sched : NEvent → Option String) (perm : Bool) (now : Int)
    (ts : List Task) (l : Ledger) (k v : String) (h : ledgerLookup l k = some v) :
    ledgerLookup (phase1 sched perm now l ts).1 k = some v := by
  induction ts generalizing l with
  | nil => simpa [phase1]
  | cons t ts ih =>
    simp only [phase1]
    by_cases he : eligibleTask t = true
    · simp only [he, if_true]
      cases hlk : ledgerLookup l t.id with
      | some w => exact ih l h
      | none =>
        cases hr : (scheduleTaskReminder sched perm t.id t.title (leadOf now t)).retId with
        | some nid =>
          simp only [hr]
          exact ih (l ++ [(t.id, nid)]) (ledgerLookup_append_some l _ k v h)
        | none =>
          simp only [hr]
          exact ih l h
    · simp only [he, if_false]
      exact ih l h

theorem phase1_entries (sched : NEvent → Option String) (perm : Bool) (now : Int)
    (ts : List Task) (l : Ledger) (p : String × String)
    (hp : p ∈ (phase1 sched perm now l ts).1) :
    p ∈ l ∨ ∃ u ∈ ts, u.id = p.1 ∧ eligibleTask u = true := by
  induction ts generalizing l with
  | nil =>
    simp only [phase1] at hp
    exact Or.inl hp
  | cons t ts ih =>
    simp only [phase1] at hp
    by_cases he : eligibleTask t = true
    · simp only [he, if_true] at hp
      cases hlk : ledgerLookup l t.id with
      | some w =>
        rw [hlk] at hp
        rcases ih l hp with h | ⟨u, hu, h1, h2⟩
        · exact Or.inl h
        · exact Or.inr ⟨u, List.mem_cons_of_mem _ hu, h1, h2⟩
      | none =>
        rw [hlk] at hp
        cases hr : (scheduleTaskReminder sched perm t.id t.title (leadOf now t)).retId with
        | some nid =>
          simp only [hr] at hp
          rcases ih (l ++ [(t.id, nid)]) hp with h | ⟨u, hu, h1, h2⟩
          · rcases List.mem_append.mp h with h | h
            · exact Or.inl h
            · simp only [List.mem_singleton] at h
              subst h
              exact Or.inr ⟨t, List.mem_cons_self t ts, rfl, he⟩
          · exact Or.inr ⟨u, List.mem_cons_of_mem _ hu, h1, h2⟩
        | none =>
          simp only [hr] at hp
          rcases ih l hp with h | ⟨u, hu, h1, h2⟩
          · exact Or.inl h
          · exact Or.inr ⟨u, List.mem_cons_of_mem _ hu, h1, h2⟩
    · simp only [he, if_false] at hp
      rcases ih l hp with h | ⟨u, hu, h1, h2⟩
      · exact Or.inl h
      · exact Or.inr ⟨u, List.mem_cons_of_mem _ hu, h1, h2⟩

theorem phase1_perm_false (sched : NEvent → Option String) (now : Int)
    (ts : List Task) (l : Ledger) :
    phase1 sched false now l ts = (l, []) := by
  induction ts generalizing l with
  | nil => rfl
  | cons t ts ih =>
    simp only [phase1]
    by_cases he : eligibleTask t = true
    · simp only [he, if_true]
      cases hlk : ledgerLookup l t.id with
      | some w => exact ih l
      | none => simp [str_not_perm, ih l]
    · simp only [he, if_false]
      exact ih l

theorem ledgerLookup_append_none (l1 l2 : Ledger) (k : String)
    (h : ledgerLookup l1 k = none) :
    ledgerLookup (l1 ++ l2) k = ledgerLookup l2 k := by
  induction l1 with
  | nil => rfl
  | cons p ps ih =>
    rw [ledgerLookup_cons] at h
    rw [List.cons_append, ledgerLookup_cons]
    cases hp : (p.1 == k) with
    | true => rw [hp] at h; simp at h
    | false =>
      rw [hp] at h
      simp only [Bool.false_eq_true, if_false] at h ⊢
      exact ih h

theorem advanceList_mem_cases (tid title : String) (s : Int) (e : NEvent)
    (he : e ∈ advanceList tid title s) :
    (0 < s - 86400 ∧ e = adv24Event tid title s) ∨
      (0 < s - 43200 ∧ e = adv12Event tid title s) ∨
      (0 < s - 21600 ∧ e = adv6Event tid title s) := by
  rw [advanceList] at he
  split_ifs at he with h1 h2 h3 <;> simp at he <;> tauto

theorem cde_taskId (tid title : String) (leadMs : Int) :
    ∀ e ∈ computeDesiredEvents tid title leadMs, e.taskId = tid := by
  intro e he
  rw [computeDesiredEvents] at he
  split_ifs at he with hp
  · simp at he
  · rcases List.mem_append.mp he with h | h
    · rcases advanceList_mem_cases _ _ _ _ h with ⟨_, rfl⟩ | ⟨_, rfl⟩ | ⟨_, rfl⟩ <;> rfl
    · rcases List.mem_cons.mp h with rfl | h
      · rfl
      · rw [followUpList] at h
        rcases List.mem_map.mp h with ⟨i, _, rfl⟩
        rfl

theorem str_calls_taskId (sched : NEvent → Option String) (perm : Bool)
    (tid title : String) (leadMs : Int) :
    ∀ e ∈ (scheduleTaskReminder sched perm tid title leadMs).calls, e.taskId = tid :=
  fun e he => cde_taskId tid title leadMs e (str_calls_mem sched perm tid title leadMs e he)

theorem phase1_covers (sched : NEvent → Option String) (now : Int)
    (ts : List Task) (l : Ledger) (t : Task)
    (hs : ∀ e, (sched e).isSome = true)
    (ht : t ∈ ts) (he : eligibleTask t = true) (hl : 0 < leadOf now t) :
    (ledgerLookup (phase1 sched true now l ts).1 t.id).isSome = true := by
  induction ts generalizing l with
  | nil => simp at ht
  | cons u us ih =>
    simp only [phase1]
    rcases List.mem_cons.mp ht with rfl | ht
    · simp only [he, if_true]
      cases hlk : ledgerLookup l t.id with
      | some w =>
        rw [phase1_lookup_pres sched true now us l t.id w hlk]
        rfl
      | none =>
        have hall : (computeDesiredEvents t.id t.title (leadOf now t)).all
            (fun e => (sched e).isSome) = true := by
          rw [List.all_eq_true]
          intro e _
          exact hs e
        obtain ⟨m, hm, hret, hcalls⟩ := str_total sched t.id t.title (leadOf now t) hl hall
        simp only [hret]
        have hl2 : ledgerLookup (l ++ [(t.id, m)]) t.id = some m := by
          rw [ledgerLookup_append_none l _ t.id hlk, ledgerLookup_cons]
          simp
        rw [phase1_lookup_pres sched true now us _ t.id m hl2]
        rfl
    · by_cases heu : eligibleTask u = true
      · simp only [heu, if_true]
        cases hlk : ledgerLookup l u.id with
        | some w => exact ih l ht
        | none =>
          cases hr : (scheduleTaskReminder sched true u.id u.title (leadOf now u)).retId with
          | some nid =>
            simp only [hr]
            exact ih (l ++ [(u.id, nid)]) ht
          | none =>
            simp only [hr]
            exact ih l ht
      · simp only [heu, if_false]
        exact ih l ht

theorem phase1_nocalls (sched : NEvent → Option String) (perm : Bool) (now : Int)
    (ts : List Task) (l : Ledger)
    (h : ∀ t ∈ ts, eligibleTask t = true →
      (ledgerLookup l t.id).isSome = true ∨
        scheduleTaskReminder sched perm t.id t.title (leadOf now t) = ⟨none, [], []⟩) :
    phase1 sched perm now l ts = (l, []) := by
  induction ts generalizing l with
  | nil => rfl
  | cons t ts ih =>
    simp only [phase1]
    by_cases he : eligibleTask t = true
    · simp only [he, if_true]
      cases hlk : ledgerLookup l t.id with
      | some w => exact ih l fun u hu hue => h u (List.mem_cons_of_mem _ hu) hue
      | none =>
        rcases h t (List.mem_cons_self t ts) he with hin | hnone
        · rw [hlk] at hin
          simp at hin
        · rw [hnone]
          rw [ih l fun u hu hue => h u (List.mem_cons_of_mem _ hu) hue]
          simp
    · simp only [he, if_false]
      exact ih l fun u hu hue => h u (List.mem_cons_of_mem _ hu) hue

theorem phase1_calls_avoid (sched : NEvent → Option String) (perm : Bool) (now : Int)
    (ts : List Task) (l : Ledger) (k v : String)
    (h : ledgerLookup l k = some v) :
    ∀ e ∈ (phase1 sched perm now l ts).2, e.taskId ≠ k := by
  induction ts generalizing l with
  | nil => intro e he; simp [phase1] at he
  | cons t ts ih =>
    intro e he
    simp only [phase1] at he
    by_cases het : eligibleTask t = true
    · simp only [het, if_true] at he
      cases hlk : ledgerLookup l t.id with
      | some w =>
        rw [hlk] at he
        exact ih l h e he
      | none =>
        rw [hlk] at he
        have htk : t.id ≠ k := by
          intro hc
          rw [hc, h] at hlk
          exact Option.noConfusion hlk
        cases hr : (scheduleTaskReminder sched perm t.id t.title (leadOf now t)).retId with
        | some nid =>
          simp only [hr] at he
          rcases List.mem_append.mp he with he | he
          · rw [str_calls_taskId sched perm t.id t.title _ e he]
            exact htk
          · exact ih (l ++ [(t.id, nid)]) (ledgerLookup_append_some l _ k v h) e he
        | none =>
          simp only [hr] at he
          rcases List.mem_append.mp he with he | he
          · rw [str_calls_taskId sched perm t.id t.title _ e he]
            exact htk
          · exact ih l h e he
    · simp only [het, if_false] at he
      exact ih l h e he

theorem taskActive_cons (u : Task) (us : List Task) (j : String) :
    taskActive (u :: us) j =
      if (u.id == j) = true then eligibleTask u else taskActive us j := by
  simp only [taskActive, List.find?]
  cases h : u.id == j <;> simp [h]

theorem disableReminder_cons (u : Task) (us : List Task) (k : String) :
    disableReminder (u :: us) k =
      (if (u.id == k) = true then { u with reminderEnabled := false } else u) ::
        disableReminder us k := rfl

theorem removeTask_cons (u : Task) (us : List Task) (k : String) :
    removeTask (u :: us) k =
      if (!(u.id == k)) = true then u :: removeTask us k else removeTask us k := by
  simp [removeTask, List.filter_cons]

theorem setReminderTime_cons (u : Task) (us : List Task) (k : String) (v : Int) :
    setReminderTime (u :: us) k v =
      (if (u.id == k) = true then { u with reminderTime := some v } else u) ::
        setReminderTime us k v := rfl

theorem taskActive_remove_self (ts : List Task) (k : String) :
    taskActive (removeTask ts k) k = false := by
  induction ts with
  | nil => rfl
  | cons u us ih =>
    rw [removeTask_cons]
    cases hbk : (u.id == k) with
    | true => simpa [hbk] using ih
    | false =>
      simp only [Bool.not_false, if_true, taskActive_cons, hbk, Bool.false_eq_true, if_false]
      exact ih

theorem taskActive_disable_self (ts : List Task) (k : String) :
    taskActive (disableReminder ts k) k = false := by
  induction ts with
  | nil => rfl
  | cons u us ih =>
    rw [disableReminder_cons, taskActive_cons]
    cases hbk : (u.id == k) with
    | true => simp [hbk, eligibleTask]
    | false => simpa [hbk] using ih

theorem taskActive_disable_other (ts : List Task) (k j : String) (hj : j ≠ k) :
    taskActive (disableReminder ts k) j = taskActive ts j := by
  induction ts with
  | nil => rfl
  | cons u us ih =>
    rw [disableReminder_cons, taskActive_cons, taskActive_cons]
    cases hbk : (u.id == k) with
    | true =>
      have hbj : (u.id == j) = false :=
        beq_eq_false_iff_ne.mpr fun hc => hj (hc ▸ beq_iff_eq.mp hbk)
      simp [hbk, hbj, ih]
    | false =>
      cases hbj : (u.id == j) with
      | true => simp [hbk, hbj]
      | false => simp [hbk, hbj, ih]

theorem taskActive_settime_other (ts : List Task) (k j : String) (v : Int) (hj : j ≠ k) :
    taskActive (setReminderTime ts k v) j = taskActive ts j := by
  induction ts with
  | nil => rfl
  | cons u us ih =>
    rw [setReminderTime_cons, taskActive_cons, taskActive_cons]
    cases hbk : (u.id == k) with
    | true =>
      have hbj : (u.id == j) = false :=
        beq_eq_false_iff_ne.mpr fun hc => hj (hc ▸ beq_iff_eq.mp hbk)
      simp [hbk, hbj, ih]
    | false =>
      cases hbj : (u.id == j) with
      | true => simp [hbk, hbj]
      | false => simp [hbk, hbj, ih]

theorem find?_settime (ts : List Task) (k : String) (v : Int) :
    (setReminderTime ts k v).find? (fun u => u.id == k) =
      (ts.find? (fun u => u.id == k)).map (fun u => { u with reminderTime := some v }) := by
  induction ts with
  | nil => rfl
  | cons u us ih =>
    rw [setReminderTime_cons]
    cases hbk : (u.id == k) with
    | true => simp [List.find?, hbk]
    | false => simp [List.find?, hbk, ih]

theorem taskActive_settime_self (ts : List Task) (k : String) (v : Int)
    (h : taskActive ts k = true) :
    taskActive (setReminderTime ts k v) k = true := by
  rw [taskActive] at h ⊢
  rw [find?_settime]
  cases hf : ts.find? (fun u => u.id == k) with
  | none => rw [hf] at h; simp at h
  | some u =>
    rw [hf] at h
    simp only [eligibleTask] at h
    have hu : u.reminderEnabled = true := by
      simp only [Bool.and_eq_true] at h
      exact h.1
    simp [eligibleTask, hu]

theorem phase1_disable_remove (sched : NEvent → Option String) (perm : Bool) (now : Int)
    (ts : List Task) (k : String) (l : Ledger) :
    phase1 sched perm now l (disableReminder ts k) =
      phase1 sched perm now l (removeTask ts k) := by
  induction ts generalizing l with
  | nil => rfl
  | cons u us ih =>
    rw [disableReminder_cons, removeTask_cons]
    cases hbk : (u.id == k) with
    | true =>
      simp only [if_true, Bool.not_true, Bool.false_eq_true, if_false]
      have he : eligibleTask { u with reminderEnabled := false } = false := by
        simp [eligibleTask]
      simp only [phase1, he, Bool.false_eq_true, if_false]
      exact ih l
    | false =>
      simp only [Bool.not_false, if_true, Bool.false_eq_true, if_false]
      simp only [phase1]
      by_cases he : eligibleTask u = true
      · simp only [he, if_true]
        cases hlk : ledgerLookup l u.id with
        | some w => exact ih l
        | none =>
          cases hr : (scheduleTaskReminder sched perm u.id u.title (leadOf now u)).retId with
          | some nid =>
            simp only [hr]
            rw [ih (l ++ [(u.id, nid)])]
          | none =>
            simp only [hr]
            rw [ih l]
      · simp only [he, if_false]
        exact ih l

theorem taskActive_disable_remove (ts : List Task) (k j : String) :
    taskActive (disableReminder ts k) j = taskActive (removeTask ts k) j := by
  by_cases hj : j = k
  · rw [hj, taskActive_disable_self, taskActive_remove_self]
  · rw [taskActive_disable_other ts k j hj]
    induction ts with
    | nil => rfl
    | cons u us ih =>
      rw [removeTask_cons, taskActive_cons]
      cases hbk : (u.id == k) with
      | true =>
        have hbj : (u.id == j) = false :=
          beq_eq_false_iff_ne.mpr fun hc => hj (hc ▸ beq_iff_eq.mp hbk)
        simp [hbk, hbj, ih]
      | false =>
        cases hbj : (u.id == j) with
        | true => simp [hbk, hbj, taskActive_cons]
        | false => simp [hbk, hbj, ih, taskActive_cons]

theorem phase1_disable_skip (sched : NEvent → Option String) (perm : Bool) (now : Int)
    (ts : List Task) (k : String) (l : Ledger) (v : String)
    (hl : ledgerLookup l k = some v) :
    phase1 sched perm now l (disableReminder ts k) = phase1 sched perm now l ts := by
  induction ts generalizing l with
  | nil => rfl
  | cons u us ih =>
    rw [disableReminder_cons]
    cases hbk : (u.id == k) with
    | true =>
      simp only [if_true]
      have hid : u.id = k := beq_iff_eq.mp hbk
      have hed : eligibleTask { u with reminderEnabled := false } = false := by
        simp [eligibleTask]
      simp only [phase1, hed, Bool.false_eq_true, if_false]
      by_cases he : eligibleTask u = true
      · simp only [he, if_true, hid, hl]
        exact ih l hl
      · simp only [he, if_false]
        exact ih l hl
    | false =>
      simp only [Bool.false_eq_true, if_false]
      simp only [phase1]
      by_cases he : eligibleTask u = true
      · simp only [he, if_true]
        cases hlk : ledgerLookup l u.id with
        | some w => exact ih l hl
        | none =>
          cases hr : (scheduleTaskReminder sched perm u.id u.title (leadOf now u)).retId with
          | some nid =>
            simp only [hr]
            rw [ih (l ++ [(u.id, nid)]) (ledgerLookup_append_some l _ k v hl)]
          | none =>
            simp only [hr]
            rw [ih l hl]
      · simp only [he, if_false]
        exact ih l hl

theorem phase1_settime_skip (sched : NEvent → Option String) (perm : Bool) (now : Int)
    (ts : List Task) (k : String) (w : Int) (l : Ledger) (v : String)
    (hl : ledgerLookup l k = some v) :
    phase1 sched perm now l (setReminderTime ts k w) = phase1 sched perm now l ts := by
  induction ts generalizing l with
  | nil => rfl
  | cons u us ih =>
    rw [setReminderTime_cons]
    cases hbk : (u.id == k) with
    | true =>
      simp only [if_true]
      have hid : u.id = k := beq_iff_eq.mp hbk
      simp only [phase1]
      by_cases he2 : eligibleTask { u with reminderTime := some w } = true
      · simp only [he2, if_true]
        have : ledgerLookup l ({ u with reminderTime := some w } : Task).id = some v := by
          simpa [hid] using hl
        simp only [this]
        by_cases he : eligibleTask u = true
        · simp only [he, if_true, hid, hl]
          exact ih l hl
        · simp only [he, if_false]
          exact ih l hl
      · simp only [he2, if_false]
        by_cases he : eligibleTask u = true
        · simp only [he, if_true, hid, hl]
          exact ih l hl
        · simp only [he, if_false]
          exact ih l hl
    | false =>
      simp only [Bool.false_eq_true, if_false]
      simp only [phase1]
      by_cases he : eligibleTask u = true
      · simp only [he, if_true]
        cases hlk : ledgerLookup l u.id with
        | some w2 => exact ih l hl
        | none =>
          cases hr : (scheduleTaskReminder sched perm u.id u.title (leadOf now u)).retId with
          | some nid =>
            simp only [hr]
            rw [ih (l ++ [(u.id, nid)]) (ledgerLookup_append_some l _ k v hl)]
          | none =>
            simp only [hr]
            rw [ih l hl]
      · simp only [he, if_false]
        exact ih l hl

theorem phase1_ledger_sub (sched : NEvent → Option String) (perm : Bool) (now : Int)
    (ts : List Task) (l : Ledger) (p : String × String) (hp : p ∈ l) :
    p ∈ (phase1 sched perm now l ts).1 := by
  induction ts generalizing l with
  | nil => simpa [phase1]
  | cons t ts ih =>
    simp only [phase1]
    by_cases he : eligibleTask t = true
    · simp only [he, if_true]
      cases hlk : ledgerLookup l t.id with
      | some w => exact ih l hp
      | none =>
        cases hr : (scheduleTaskReminder sched perm t.id t.title (leadOf now t)).retId with
        | some nid =>
          simp only [hr]
          exact ih (l ++ [(t.id, nid)]) (List.mem_append_left _ hp)
        | none =>
          simp only [hr]
          exact ih l hp
    · simp only [he, if_false]
      exact ih l hp

theorem phase1_all_calls (sched : NEvent → Option String) (now : Int)
    (ts : List Task) (l : Ledger)
    (hs : ∀ e, (sched e).isSome = true)
    (hnd : (ts.map Task.id).Nodup)
    (hall : ∀ t ∈ ts, eligibleTask t = true ∧ 0 < leadOf now t)
    (hnone : ∀ t ∈ ts, ledgerLookup l t.id = none) :
    (phase1 sched true now l ts).2 =
      ts.flatMap (fun t => computeDesiredEvents t.id t.title (leadOf now t)) := by
  induction ts generalizing l with
  | nil => rfl
  | cons t ts ih =>
    rw [List.map_cons, List.nodup_cons] at hnd
    obtain ⟨he, hlt⟩ := hall t (List.mem_cons_self t ts)
    have hlk := hnone t (List.mem_cons_self t ts)
    have hallx : (computeDesiredEvents t.id t.title (leadOf now t)).all
        (fun e => (sched e).isSome) = true := by
      rw [List.all_eq_true]
      intro e _
      exact hs e
    obtain ⟨m, hm, hret, hcalls⟩ := str_total sched t.id t.title (leadOf now t) hlt hallx
    simp only [phase1, he, if_true, hlk, hret]
    rw [List.flatMap_cons, ← hcalls]
    congr 1
    rw [ih (l ++ [(t.id, m)]) hnd.2 (fun u hu => (hall u (List.mem_cons_of_mem _ hu)))]
    intro u hu
    rw [ledgerLookup_append_none l _ u.id (hnone u (List.mem_cons_of_mem _ hu)),
      ledgerLookup_cons]
    have : (t.id == u.id) = false :=
      beq_eq_false_iff_ne.mpr fun hc => hnd.1 (hc ▸ List.mem_map_of_mem _ hu)
    simp [this, ledgerLookup]

/-- C1: for a reminder lead time of exactly 25 hours the computed event
set has exactly 9 events: the advance-24h event at offset 1 h with body
"<title> is scheduled for tomorrow", the advance-12h event at 13 h, the
advance-6h event at 19 h, the at-time event at 25 h, and the five
follow-ups at 25 h plus 2, 4, 6, 8 and 10 minutes. -/
theorem C1_lead_25h_event_set (tid title : String) :
    computeDesiredEvents tid title (25 * 3600 * 1000) =
      [⟨Tier.advance24, 1 * 3600, "📅 Upcoming Task Tomorrow",
          title ++ " is scheduled for tomorrow", tid, title⟩,
        ⟨Tier.advance12, 13 * 3600, "⏳ Task in 12 Hours",
          title ++ " is coming up in 12 hours", tid, title⟩,
        ⟨Tier.advance6, 19 * 3600, "⏰ Task in 6 Hours",
          title ++ " is coming up in 6 hours", tid, title⟩,
        ⟨Tier.atTime, 25 * 3600, "⏰ Task Reminder - NOW", title, tid, title⟩,
        ⟨Tier.followUp, 25 * 3600 + 2 * 60, "🔔 Reminder: Still Pending", title, tid, title⟩,
        ⟨Tier.followUp, 25 * 3600 + 4 * 60, "🔔 Reminder: Still Pending", title, tid, title⟩,
        ⟨Tier.followUp, 25 * 3600 + 6 * 60, "🔔 Reminder: Still Pending", title, tid, title⟩,
        ⟨Tier.followUp, 25 * 3600 + 8 * 60, "🔔 Reminder: Still Pending", title, tid, title⟩,
        ⟨Tier.followUp, 25 * 3600 + 10 * 60, "🔔 Reminder: Still Pending", title, tid, title⟩] := by
  rfl

/-- C3: a reminder lead time at or before now produces no events at all —
the computed event set is empty and the scheduling helper returns null
without issuing a single call to the external scheduler. -/
theorem C3_past_lead_no_events (sched : NEvent → Option String) (perm : Bool)
    (tid title : String) (leadMs : Int) (h : leadMs ≤ 0) :
    computeDesiredEvents tid title leadMs = [] ∧
      scheduleTaskReminder sched perm tid title leadMs = ⟨none, [], []⟩ := by
  refine ⟨?_, str_past sched perm tid title leadMs h⟩
  simp [computeDesiredEvents, h]

theorem C3_past_lead_no_events_witness :
    computeDesiredEvents "t1" "Report" (-60000) = [] ∧
      scheduleTaskReminder (fun _ => some "h") true "t1" "Report" (-60000) =
        ⟨none, [], []⟩ :=
  C3_past_lead_no_events (fun _ => some "h") true "t1" "Report" (-60000) (by decide)

/-- C6 counterexample: with permission granted, an always-accepting
scheduler and a lead time of 500 ms the at-time event is handed to the
external scheduler with computed offset 0 — an event with non-positive
offset that is scheduled rather than dropped. -/
theorem C6_cex_zero_offset_scheduled :
    mainEvent "t1" "Report" 0 ∈
        (scheduleTaskReminder (fun _ => some "h") true "t1" "Report" 500).calls ∧
      (mainEvent "t1" "Report" 0).seconds = 0 := by
  decide

/-- C6 amended: every event handed to the external scheduler has a
nonnegative fire offset; advance-tier and follow-up events always have a
strictly positive offset, but the at-time event's offset can be exactly
zero (lead time under one second) and is then still scheduled, not
dropped. -/
theorem C6_amended_offset_bounds (sched : NEvent → Option String) (perm : Bool)
    (tid title : String) (leadMs : Int) (e : NEvent)
    (he : e ∈ (scheduleTaskReminder sched perm tid title leadMs).calls) :
    0 ≤ e.seconds ∧ (e.tier ≠ Tier.atTime → 0 < e.seconds) := by
  have hev := str_calls_mem sched perm tid title leadMs e he
  by_cases hp : leadMs ≤ 0
  · rw [computeDesiredEvents, if_pos hp] at hev
    simp at hev
  · rw [computeDesiredEvents, if_neg hp] at hev
    have hs : 0 ≤ leadMs / 1000 := Int.ediv_nonneg (by omega) (by omega)
    rcases List.mem_append.mp hev with hadv | hrest
    · rcases advanceList_mem_cases tid title (leadMs / 1000) e hadv with h | h | h
      · rcases h with ⟨hpos, rfl⟩
        exact ⟨le_of_lt hpos, fun _ => hpos⟩
      · rcases h with ⟨hpos, rfl⟩
        exact ⟨le_of_lt hpos, fun _ => hpos⟩
      · rcases h with ⟨hpos, rfl⟩
        exact ⟨le_of_lt hpos, fun _ => hpos⟩
    · rcases List.mem_cons.mp hrest with hmain | hfu
      · subst hmain
        exact ⟨hs, fun hne => absurd rfl hne⟩
      · rw [followUpList, followUpIntervals] at hfu
        simp only [List.map_cons, List.map_nil, List.mem_cons] at hfu
        rcases hfu with h | h | h | h | h | h
        all_goals first
          | (subst h; exact ⟨by simp [followUpEvent]; omega, fun _ => by simp [followUpEvent]; omega⟩)
          | simp at h

theorem C6_amended_offset_bounds_witness :
    0 ≤ (adv24Event "t1" "Report" 90000).seconds ∧
      ((adv24Event "t1" "Report" 90000).tier ≠ Tier.atTime →
        0 < (adv24Event "t1" "Report" 90000).seconds) :=
  C6_amended_offset_bounds (fun _ => some "h") true "t1" "Report" 90000000 _ (by decide)

/-- C2 counterexample: for a new task with a 25-hour lead the pass issues
9 schedule calls and the scheduler returns 9 handles, yet the ledger
entry created for the task records exactly one handle — the main
notification's — not the full handle set. -/
theorem C2_cex_ledger_records_one_handle :
    (scheduleTaskReminder (fun e => some (toString e.seconds)) true "t1" "Report"
        90000000).handles.length = 9 ∧
      (syncNotifications (fun e => some (toString e.seconds)) true 0
          [⟨"t1", "Report", true, some 90000000⟩] []).schedCalls.length = 9 ∧
      (syncNotifications (fun e => some (toString e.seconds)) true 0
          [⟨"t1", "Report", true, some 90000000⟩] []).ledger = [("t1", "90000")] := by
  decide

/-- C2 amended: for a task with an active future reminder that is not yet
a ledger key, one reconciliation pass schedules every event of the task's
computed event set but records, as the task's ledger entry, only the
handle of the main at-time notification (the helper returns only that
id; the advance and follow-up handles are discarded).  When the task
later disappears from the collection, the next pass issues exactly one
cancel call — for that single recorded handle — and removes the ledger
entry. -/
theorem C2_amended_schedule_then_cancel (sched : NEvent → Option String) (now : Int)
    (t : Task) (he : eligibleTask t = true) (hl : 0 < leadOf now t)
    (hs : (computeDesiredEvents t.id t.title (leadOf now t)).all
        (fun e => (sched e).isSome) = true) :
    ∃ m, sched (mainEvent t.id t.title (leadOf now t / 1000)) = some m ∧
      syncNotifications sched true now [t] [] =
        ⟨[(t.id, m)], computeDesiredEvents t.id t.title (leadOf now t), []⟩ ∧
      syncNotifications sched true now [] [(t.id, m)] = ⟨[], [], [m]⟩ := by
  obtain ⟨m, hm, hret, hcalls⟩ := str_total sched t.id t.title (leadOf now t) hl hs
  refine ⟨m, hm, ?_, ?_⟩
  · simp only [syncNotifications, phase1, he, if_pos rfl, ledgerLookup, List.find?_nil,
      Option.map_none, hret, hcalls, List.append_nil, phase2]
    simp [taskActive, List.find?_cons, he]
  · simp [syncNotifications, phase1, phase2, taskActive, List.find?]

theorem C2_amended_schedule_then_cancel_witness :
    ∃ m, (fun e => some (toString e.seconds))
          (mainEvent "t1" "Report" (leadOf 0 ⟨"t1", "Report", true, some 90000000⟩ / 1000)) =
          some m ∧
      syncNotifications (fun e => some (toString e.seconds)) true 0
          [⟨"t1", "Report", true, some 90000000⟩] [] =
        ⟨[(("t1" : String), m)],
          computeDesiredEvents "t1" "Report" (leadOf 0 ⟨"t1", "Report", true, some 90000000⟩),
          []⟩ ∧
      syncNotifications (fun e => some (toString e.seconds)) true 0 []
          [(("t1" : String), m)] = ⟨[], [], [m]⟩ :=
  C2_amended_schedule_then_cancel (fun e => some (toString e.seconds)) 0
    ⟨"t1", "Report", true, some 90000000⟩ (by decide) (by decide) (by decide)

/-- C4 counterexample: the task's desired set has 9 events, but when the
schedule call for the first event (the advance-24h notification) throws,
no sibling event is attempted — only 1 call is issued — the helper
returns null, and no handle at all is recorded in the ledger. -/
theorem C4_cex_failure_aborts_siblings :
    (computeDesiredEvents "t1" "Report" 90000000).length = 9 ∧
      (scheduleTaskReminder (fun e => if e.tier = Tier.advance24 then none else some "h")
          true "t1" "Report" 90000000).calls.length = 1 ∧
      (scheduleTaskReminder (fun e => if e.tier = Tier.advance24 then none else some "h")
          true "t1" "Report" 90000000).retId = none ∧
      (syncNotifications (fun e => if e.tier = Tier.advance24 then none else some "h")
          true 0 [⟨"t1", "Report", true, some 90000000⟩] []).ledger = [] := by
  decide

/-- C4 amended: failure isolation is per task, not per event.  When one of
a task's schedule calls throws, the helper's single try/catch aborts that
task: it returns null and the task records no handles at all.  The other
tasks of the same pass are unaffected: a sibling task whose calls all
succeed is still scheduled and recorded. -/
theorem C4_amended_task_level_isolation (sched : NEvent → Option String) (now : Int)
    (t1 t2 : Task) (hid : t1.id ≠ t2.id)
    (he1 : eligibleTask t1 = true) (he2 : eligibleTask t2 = true)
    (hl2 : 0 < leadOf now t2)
    (hfail : (computeDesiredEvents t1.id t1.title (leadOf now t1)).all
        (fun e => (sched e).isSome) = false)
    (hok2 : (computeDesiredEvents t2.id t2.title (leadOf now t2)).all
        (fun e => (sched e).isSome) = true) :
    (scheduleTaskReminder sched true t1.id t1.title (leadOf now t1)).retId = none ∧
      ledgerLookup (syncNotifications sched true now [t1, t2] []).ledger t1.id = none ∧
      (ledgerLookup (syncNotifications sched true now [t1, t2] []).ledger t2.id).isSome =
        true ∧
      (syncNotifications sched true now [t1, t2] []).schedCalls =
        (scheduleTaskReminder sched true t1.id t1.title (leadOf now t1)).calls ++
          computeDesiredEvents t2.id t2.title (leadOf now t2) := by
  have hl1 : 0 < leadOf now t1 := by
    by_contra hc
    rw [computeDesiredEvents, if_pos (by omega)] at hfail
    simp at hfail
  have hret1 : (scheduleTaskReminder sched true t1.id t1.title (leadOf now t1)).retId =
      none := by
    have := str_retId_isSome sched t1.id t1.title (leadOf now t1) hl1
    rw [hfail] at this
    exact Option.not_isSome_iff_eq_none.mp (by simp [this])
  obtain ⟨m, hm, hret2, hcalls2⟩ := str_total sched t2.id t2.title (leadOf now t2) hl2 hok2
  have hbne : (t1.id == t2.id) = false := beq_eq_false_iff_ne.mpr hid
  have hbne2 : (t2.id == t1.id) = false := beq_eq_false_iff_ne.mpr (Ne.symm hid)
  refine ⟨hret1, ?_, ?_, ?_⟩ <;>
    simp [syncNotifications, phase1, he1, he2, ledgerLookup, hret1, hret2, hcalls2,
      phase2, taskActive, List.find?, hbne, hbne2]

theorem C4_amended_task_level_isolation_witness :
    (scheduleTaskReminder
          (fun e => if e.taskId = "a" ∧ e.tier = Tier.advance24 then none else some "h")
          true "a" "A" (leadOf 0 ⟨"a", "A", true, some 90000000⟩)).retId = none ∧
      ledgerLookup
          (syncNotifications
              (fun e => if e.taskId = "a" ∧ e.tier = Tier.advance24 then none else some "h")
              true 0 [⟨"a", "A", true, some 90000000⟩, ⟨"b", "B", true, some 90000000⟩]
              []).ledger "a" = none ∧
      (ledgerLookup
          (syncNotifications
              (fun e => if e.taskId = "a" ∧ e.tier = Tier.advance24 then none else some "h")
              true 0 [⟨"a", "A", true, some 90000000⟩, ⟨"b", "B", true, some 90000000⟩]
              []).ledger "b").isSome = true ∧
      (syncNotifications
          (fun e => if e.taskId = "a" ∧ e.tier = Tier.advance24 then none else some "h")
          true 0 [⟨"a", "A", true, some 90000000⟩, ⟨"b", "B", true, some 90000000⟩]
          []).schedCalls =
        (scheduleTaskReminder
            (fun e => if e.taskId = "a" ∧ e.tier = Tier.advance24 then none else some "h")
            true "a" "A" (leadOf 0 ⟨"a", "A", true, some 90000000⟩)).calls ++
          computeDesiredEvents "b" "B" (leadOf 0 ⟨"b", "B", true, some 90000000⟩) :=
  C4_amended_task_level_isolation
    (fun e => if e.taskId = "a" ∧ e.tier = Tier.advance24 then none else some "h") 0
    ⟨"a", "A", true, some 90000000⟩ ⟨"b", "B", true, some 90000000⟩
    (by decide) (by decide) (by decide) (by decide) (by decide) (by decide)

/-- C5: reconciliation is idempotent — with the external scheduler
accepting every call and task ids unique, a second `syncNotifications`
pass over the identical task collection and the ledger left by the first
pass issues zero schedule calls and zero cancel calls. -/
theorem C5_reconcile_idempotent (sched : NEvent → Option String) (perm : Bool)
    (now : Int) (tasks : List Task) (l : Ledger)
    (hs : ∀ e, (sched e).isSome = true)
    (hnd : (tasks.map Task.id).Nodup) :
    (syncNotifications sched perm now tasks
        (syncNotifications sched perm now tasks l).ledger).schedCalls = [] ∧
      (syncNotifications sched perm now tasks
        (syncNotifications sched perm now tasks l).ledger).cancelCalls = [] := by
  have hled : (syncNotifications sched perm now tasks l).ledger =
      ((phase1 sched perm now l tasks).1).filter (fun p => taskActive tasks p.1) := rfl
  set l1 := ((phase1 sched perm now l tasks).1).filter (fun p => taskActive tasks p.1)
    with hl1def
  have hA : ∀ t ∈ tasks, eligibleTask t = true →
      (ledgerLookup l1 t.id).isSome = true ∨
        scheduleTaskReminder sched perm t.id t.title (leadOf now t) = ⟨none, [], []⟩ := by
    intro t ht he
    cases perm with
    | false => exact Or.inr (str_not_perm sched t.id t.title _)
    | true =>
      by_cases hlt : 0 < leadOf now t
      · refine Or.inl ?_
        have hact : taskActive tasks t.id = true := by
          rw [taskActive, find?_task_of_nodup tasks t hnd ht]
          exact he
        rw [hl1def, ledgerLookup_filter (taskActive tasks) _ t.id, if_pos hact]
        exact phase1_covers sched now tasks l t hs ht he hlt
      · exact Or.inr (str_past sched true t.id t.title _ (by omega))
  have hp1 : phase1 sched perm now l1 tasks = (l1, []) :=
    phase1_nocalls sched perm now tasks l1 hA
  have hall : ∀ p ∈ l1, taskActive tasks p.1 = true := by
    intro p hp
    rw [hl1def] at hp
    exact (List.mem_filter.mp hp).2
  rw [hled]
  constructor
  · show (phase1 sched perm now l1 tasks).2 = []
    rw [hp1]
  · show ((phase1 sched perm now l1 tasks).1.filter
        (fun p => !(taskActive tasks p.1))).map (fun p => p.2) = []
    rw [hp1]
    have hnil : l1.filter (fun p => !(taskActive tasks p.1)) = [] :=
      List.filter_eq_nil_iff.mpr fun p hp => by simp [hall p hp]
    show (l1.filter (fun p => !(taskActive tasks p.1))).map (fun p => p.2) = []
    rw [hnil]
    rfl

theorem C5_reconcile_idempotent_witness :
    (syncNotifications (fun _ => some "h") true 0 [⟨"a", "A", true, some 1000⟩]
        (syncNotifications (fun _ => some "h") true 0 [⟨"a", "A", true, some 1000⟩]
          []).ledger).schedCalls = [] ∧
      (syncNotifications (fun _ => some "h") true 0 [⟨"a", "A", true, some 1000⟩]
        (syncNotifications (fun _ => some "h") true 0 [⟨"a", "A", true, some 1000⟩]
          []).ledger).cancelCalls = [] :=
  C5_reconcile_idempotent (fun _ => some "h") true 0 [⟨"a", "A", true, some 1000⟩] []
    (fun _ => rfl) (by decide)

/-- C9: when notification permission is not granted the pass issues no
schedule calls, the ledger can only lose stale entries, a task without a
prior entry still has none afterwards, and such a task is scheduled and
recorded by a later pass that runs with permission granted. -/
theorem C9_permission_denied (sched : NEvent → Option String) (now : Int)
    (tasks : List Task) (l : Ledger)
    (hs : ∀ e, (sched e).isSome = true)
    (hnd : (tasks.map Task.id).Nodup) :
    (syncNotifications sched false now tasks l).schedCalls = [] ∧
      (syncNotifications sched false now tasks l).ledger =
        l.filter (fun p => taskActive tasks p.1) ∧
      (∀ t ∈ tasks, ledgerLookup l t.id = none →
        ledgerLookup (syncNotifications sched false now tasks l).ledger t.id = none) ∧
      ∀ t ∈ tasks, eligibleTask t = true → 0 < leadOf now t →
        (ledgerLookup (syncNotifications sched true now tasks
            (syncNotifications sched false now tasks l).ledger).ledger t.id).isSome =
          true := by
  have hp := phase1_perm_false sched now tasks l
  have hled : (syncNotifications sched false now tasks l).ledger =
      l.filter (fun p => taskActive tasks p.1) := by
    show ((phase1 sched false now l tasks).1).filter (fun p => taskActive tasks p.1) =
      l.filter (fun p => taskActive tasks p.1)
    rw [hp]
  refine ⟨?_, hled, ?_, ?_⟩
  · show (phase1 sched false now l tasks).2 = []
    rw [hp]
  · intro t ht hnone
    rw [hled, ledgerLookup_filter (taskActive tasks) l t.id]
    by_cases hact : taskActive tasks t.id = true
    · rw [if_pos hact]
      exact hnone
    · rw [if_neg hact]
  · intro t ht he hlt
    have hact : taskActive tasks t.id = true := by
      rw [taskActive, find?_task_of_nodup tasks t hnd ht]
      exact he
    show (ledgerLookup (((phase1 sched true now
        ((syncNotifications sched false now tasks l).ledger) tasks).1).filter
          (fun p => taskActive tasks p.1)) t.id).isSome = true
    rw [ledgerLookup_filter (taskActive tasks) _ t.id, if_pos hact]
    exact phase1_covers sched now tasks _ t hs ht he hlt

theorem C9_permission_denied_witness :
    (syncNotifications (fun _ => some "h") false 0 [⟨"a", "A", true, some 1000⟩]
        []).schedCalls = [] ∧
      (syncNotifications (fun _ => some "h") false 0 [⟨"a", "A", true, some 1000⟩]
          []).ledger =
        List.filter (fun p => taskActive [⟨"a", "A", true, some 1000⟩] p.1) [] ∧
      (∀ t ∈ [(⟨"a", "A", true, some 1000⟩ : Task)], ledgerLookup [] t.id = none →
        ledgerLookup (syncNotifications (fun _ => some "h") false 0
            [⟨"a", "A", true, some 1000⟩] []).ledger t.id = none) ∧
      ∀ t ∈ [(⟨"a", "A", true, some 1000⟩ : Task)], eligibleTask t = true →
        0 < leadOf 0 t →
        (ledgerLookup (syncNotifications (fun _ => some "h") true 0
            [⟨"a", "A", true, some 1000⟩]
            (syncNotifications (fun _ => some "h") false 0 [⟨"a", "A", true, some 1000⟩]
              []).ledger).ledger t.id).isSome = true :=
  C9_permission_denied (fun _ => some "h") 0 [⟨"a", "A", true, some 1000⟩] []
    (fun _ => rfl) (by decide)

/-- C7: toggling `reminderEnabled` off for an already-scheduled task makes
the pass behave exactly as deleting the task: the whole pass result is
equal, the recorded handle is cancelled, the task's ledger entry is
removed, and every other key's resulting ledger entry is the same as in a
pass over the unmodified collection. -/
theorem C7_disable_equals_delete (sched : NEvent → Option String) (perm : Bool)
    (now : Int) (tasks : List Task) (l : Ledger) (t : Task) (h : String)
    (hnd : (tasks.map Task.id).Nodup) (ht : t ∈ tasks)
    (he : eligibleTask t = true) (hl : ledgerLookup l t.id = some h) :
    syncNotifications sched perm now (disableReminder tasks t.id) l =
        syncNotifications sched perm now (removeTask tasks t.id) l ∧
      h ∈ (syncNotifications sched perm now (disableReminder tasks t.id) l).cancelCalls ∧
      ledgerLookup
          (syncNotifications sched perm now (disableReminder tasks t.id) l).ledger t.id =
        none ∧
      ∀ j, j ≠ t.id →
        ledgerLookup
            (syncNotifications sched perm now (disableReminder tasks t.id) l).ledger j =
          ledgerLookup (syncNotifications sched perm now tasks l).ledger j := by
  have hp := phase1_disable_remove sched perm now tasks t.id l
  have hpskip := phase1_disable_skip sched perm now tasks t.id l h hl
  have hta : ∀ j, taskActive (disableReminder tasks t.id) j =
      taskActive (removeTask tasks t.id) j :=
    fun j => taskActive_disable_remove tasks t.id j
  refine ⟨?_, ?_, ?_, ?_⟩
  · have hfun1 : (fun p : String × String =>
          taskActive (disableReminder tasks t.id) p.1) =
        (fun p => taskActive (removeTask tasks t.id) p.1) :=
      funext fun p => hta p.1
    have hfun2 : (fun p : String × String =>
          !(taskActive (disableReminder tasks t.id) p.1)) =
        (fun p => !(taskActive (removeTask tasks t.id) p.1)) :=
      funext fun p => by rw [hta p.1]
    simp only [syncNotifications, phase2, hp, hfun1, hfun2]
  · obtain ⟨q, hqmem, hq1, hq2⟩ : ∃ q ∈ l, q.1 = t.id ∧ q.2 = h := by
      rcases hfind : l.find? (fun p => p.1 == t.id) with _ | q
      · rw [ledgerLookup, hfind] at hl
        simp at hl
      · refine ⟨q, List.mem_of_find?_eq_some hfind, ?_, ?_⟩
        · exact beq_iff_eq.mp (by simpa using List.find?_some hfind)
        · rw [ledgerLookup, hfind] at hl
          simpa using hl
    show h ∈ (((phase1 sched perm now l (disableReminder tasks t.id)).1).filter
        (fun p => !(taskActive (disableReminder tasks t.id) p.1))).map (fun p => p.2)
    refine List.mem_map.mpr ⟨q, List.mem_filter.mpr ⟨?_, ?_⟩, hq2⟩
    · exact phase1_ledger_sub sched perm now _ l q hqmem
    · rw [hq1, taskActive_disable_self]
      rfl
  · have hfalse : taskActive (disableReminder tasks t.id) t.id = false :=
      taskActive_disable_self tasks t.id
    show ledgerLookup (((phase1 sched perm now l (disableReminder tasks t.id)).1).filter
        (fun p => taskActive (disableReminder tasks t.id) p.1)) t.id = none
    rw [ledgerLookup_filter (taskActive (disableReminder tasks t.id)) _ t.id, hfalse]
    simp
  · intro j hj
    show ledgerLookup (((phase1 sched perm now l (disableReminder tasks t.id)).1).filter
          (fun p => taskActive (disableReminder tasks t.id) p.1)) j =
        ledgerLookup (((phase1 sched perm now l tasks).1).filter
          (fun p => taskActive tasks p.1)) j
    rw [hpskip, ledgerLookup_filter (taskActive (disableReminder tasks t.id)) _ j,
      ledgerLookup_filter (taskActive tasks) _ j,
      taskActive_disable_other tasks t.id j hj]

theorem C7_disable_equals_delete_witness :
    syncNotifications (fun _ => some "h") true 0
          (disableReminder [⟨"a", "A", true, some 1000⟩, ⟨"b", "B", true, some 2000⟩] "a")
          [("a", "n1"), ("b", "n2")] =
        syncNotifications (fun _ => some "h") true 0
          (removeTask [⟨"a", "A", true, some 1000⟩, ⟨"b", "B", true, some 2000⟩] "a")
          [("a", "n1"), ("b", "n2")] ∧
      "n1" ∈ (syncNotifications (fun _ => some "h") true 0
          (disableReminder [⟨"a", "A", true, some 1000⟩, ⟨"b", "B", true, some 2000⟩] "a")
          [("a", "n1"), ("b", "n2")]).cancelCalls ∧
      ledgerLookup (syncNotifications (fun _ => some "h") true 0
          (disableReminder [⟨"a", "A", true, some 1000⟩, ⟨"b", "B", true, some 2000⟩] "a")
          [("a", "n1"), ("b", "n2")]).ledger "a" = none ∧
      ∀ j, j ≠ "a" →
        ledgerLookup (syncNotifications (fun _ => some "h") true 0
            (disableReminder [⟨"a", "A", true, some 1000⟩, ⟨"b", "B", true, some 2000⟩]
              "a")
            [("a", "n1"), ("b", "n2")]).ledger j =
          ledgerLookup (syncNotifications (fun _ => some "h") true 0
            [⟨"a", "A", true, some 1000⟩, ⟨"b", "B", true, some 2000⟩]
            [("a", "n1"), ("b", "n2")]).ledger j :=
  C7_disable_equals_delete (fun _ => some "h") true 0
    [⟨"a", "A", true, some 1000⟩, ⟨"b", "B", true, some 2000⟩]
    [("a", "n1"), ("b", "n2")] ⟨"a", "A", true, some 1000⟩ "n1"
    (by decide) (by decide) (by decide) (by decide)

/-- C8: a task present both as a ledger key and in the active set is left
untouched by the pass: its ledger entry is unchanged, no schedule call of
the pass belongs to it, its recorded handle is not cancelled, and the
entire pass result is unchanged when the task's reminder instant is
replaced by any other set value — the Reconciler does not react to a
changed reminder time. -/
theorem C8_scheduled_task_untouched (sched : NEvent → Option String) (perm : Bool)
    (now : Int) (tasks : List Task) (l : Ledger) (t : Task) (h : String)
    (hnd : (tasks.map Task.id).Nodup)
    (hvals : (l.map (fun p => p.2)).Nodup)
    (ht : t ∈ tasks) (he : eligibleTask t = true)
    (hl : ledgerLookup l t.id = some h) :
    ledgerLookup (syncNotifications sched perm now tasks l).ledger t.id = some h ∧
      (∀ e ∈ (syncNotifications sched perm now tasks l).schedCalls, e.taskId ≠ t.id) ∧
      h ∉ (syncNotifications sched perm now tasks l).cancelCalls ∧
      ∀ v : Int, syncNotifications sched perm now (setReminderTime tasks t.id v) l =
        syncNotifications sched perm now tasks l := by
  have hact : taskActive tasks t.id = true := by
    rw [taskActive, find?_task_of_nodup tasks t hnd ht]
    exact he
  refine ⟨?_, ?_, ?_, ?_⟩
  · show ledgerLookup (((phase1 sched perm now l tasks).1).filter
        (fun p => taskActive tasks p.1)) t.id = some h
    rw [ledgerLookup_filter (taskActive tasks) _ t.id, if_pos hact]
    exact phase1_lookup_pres sched perm now tasks l t.id h hl
  · intro e hee
    exact phase1_calls_avoid sched perm now tasks l t.id h hl e hee
  · intro hmem
    have hmem2 : h ∈ (((phase1 sched perm now l tasks).1).filter
        (fun p => !(taskActive tasks p.1))).map (fun p => p.2) := hmem
    rcases List.mem_map.mp hmem2 with ⟨q, hq, hq2⟩
    have hqf := List.mem_filter.mp hq
    have hqact : taskActive tasks q.1 = false := by
      have hx := hqf.2
      simpa using hx
    rcases phase1_entries sched perm now tasks l q hqf.1 with hql | ⟨u, hu, hu1, hu2⟩
    · obtain ⟨q0, hq0mem, hq01, hq02⟩ : ∃ q0 ∈ l, q0.1 = t.id ∧ q0.2 = h := by
        rcases hfind : l.find? (fun p => p.1 == t.id) with _ | q0
        · rw [ledgerLookup, hfind] at hl
          simp at hl
        · refine ⟨q0, List.mem_of_find?_eq_some hfind, ?_, ?_⟩
          · exact beq_iff_eq.mp (by simpa using List.find?_some hfind)
          · rw [ledgerLookup, hfind] at hl
            simpa using hl
      have hqq : q = q0 :=
        List.inj_on_of_nodup_map hvals hql hq0mem (by rw [hq2, hq02])
      rw [hqq, hq01] at hqact
      rw [hact] at hqact
      exact Bool.noConfusion hqact
    · have hx : taskActive tasks q.1 = true := by
        rw [← hu1, taskActive, find?_task_of_nodup tasks u hnd hu]
        exact hu2
      rw [hx] at hqact
      exact Bool.noConfusion hqact
  · intro v
    have hps := phase1_settime_skip sched perm now tasks t.id v l h hl
    have htaeq : ∀ j, taskActive (setReminderTime tasks t.id v) j = taskActive tasks j := by
      intro j
      by_cases hj : j = t.id
      · rw [hj, taskActive_settime_self tasks t.id v hact, hact]
      · exact taskActive_settime_other tasks t.id j v hj
    have hfun1 : (fun p : String × String =>
          taskActive (setReminderTime tasks t.id v) p.1) =
        (fun p => taskActive tasks p.1) := funext fun p => htaeq p.1
    have hfun2 : (fun p : String × String =>
          !(taskActive (setReminderTime tasks t.id v) p.1)) =
        (fun p => !(taskActive tasks p.1)) := funext fun p => by rw [htaeq p.1]
    simp only [syncNotifications, phase2, hps, hfun1, hfun2]

theorem C8_scheduled_task_untouched_witness :
    ledgerLookup (syncNotifications (fun _ => some "h") true 0
        [⟨"a", "A", true, some 1000⟩, ⟨"b", "B", true, some 2000⟩]
        [("a", "n1")]).ledger "a" = some "n1" ∧
      (∀ e ∈ (syncNotifications (fun _ => some "h") true 0
          [⟨"a", "A", true, some 1000⟩, ⟨"b", "B", true, some 2000⟩]
          [("a", "n1")]).schedCalls, e.taskId ≠ "a") ∧
      "n1" ∉ (syncNotifications (fun _ => some "h") true 0
          [⟨"a", "A", true, some 1000⟩, ⟨"b", "B", true, some 2000⟩]
          [("a", "n1")]).cancelCalls ∧
      ∀ v : Int, syncNotifications (fun _ => some "h") true 0
          (setReminderTime [⟨"a", "A", true, some 1000⟩, ⟨"b", "B", true, some 2000⟩]
            "a" v) [("a", "n1")] =
        syncNotifications (fun _ => some "h") true 0
          [⟨"a", "A", true, some 1000⟩, ⟨"b", "B", true, some 2000⟩] [("a", "n1")] :=
  C8_scheduled_task_untouched (fun _ => some "h") true 0
    [⟨"a", "A", true, some 1000⟩, ⟨"b", "B", true, some 2000⟩] [("a", "n1")]
    ⟨"a", "A", true, some 1000⟩ "n1"
    (by decide) (by decide) (by decide) (by decide) (by decide)

/-- C10: `clearNotificationMappings` empties the ledger without issuing a
single cancel call, so every previously scheduled notification stays
scheduled; a subsequent pass over the same task collection (all of whose
tasks have active future reminders) treats every task as new, re-issues
the full schedule-call sequence for every task and creates fresh ledger
entries, while cancelling nothing. -/
theorem C10_clear_then_duplicate_schedules (sched : NEvent → Option String) (now : Int)
    (tasks : List Task) (l : Ledger)
    (hs : ∀ e, (sched e).isSome = true)
    (hnd : (tasks.map Task.id).Nodup)
    (hall : ∀ t ∈ tasks, eligibleTask t = true ∧ 0 < leadOf now t) :
    clearNotificationMappings l = ([], []) ∧
      (syncNotifications sched true now tasks []).schedCalls =
        tasks.flatMap (fun t => computeDesiredEvents t.id t.title (leadOf now t)) ∧
      (syncNotifications sched true now tasks []).cancelCalls = [] ∧
      ∀ t ∈ tasks, (ledgerLookup (syncNotifications sched true now tasks []).ledger
        t.id).isSome = true := by
  refine ⟨rfl, ?_, ?_, ?_⟩
  · show (phase1 sched true now [] tasks).2 = _
    exact phase1_all_calls sched now tasks [] hs hnd hall (fun t _ => rfl)
  · show (((phase1 sched true now [] tasks).1).filter
        (fun p => !(taskActive tasks p.1))).map (fun p => p.2) = []
    have hnil : ((phase1 sched true now [] tasks).1).filter
        (fun p => !(taskActive tasks p.1)) = [] := by
      refine List.filter_eq_nil_iff.mpr fun q hq => ?_
      rcases phase1_entries sched true now tasks [] q hq with hq0 | ⟨u, hu, hu1, hu2⟩
      · simp at hq0
      · have hx : taskActive tasks q.1 = true := by
          rw [← hu1, taskActive, find?_task_of_nodup tasks u hnd hu]
          exact hu2
        simp [hx]
    rw [hnil]
    rfl
  · intro t ht
    have hact : taskActive tasks t.id = true := by
      rw [taskActive, find?_task_of_nodup tasks t hnd ht]
      exact (hall t ht).1
    show (ledgerLookup (((phase1 sched true now [] tasks).1).filter
        (fun p => taskActive tasks p.1)) t.id).isSome = true
    rw [ledgerLookup_filter (taskActive tasks) _ t.id, if_pos hact]
    exact phase1_covers sched now tasks [] t hs ht (hall t ht).1 (hall t ht).2

theorem C10_clear_then_duplicate_schedules_witness :
    clearNotificationMappings [("a", "n1")] = ([], []) ∧
      (syncNotifications (fun _ => some "h") true 0 [⟨"a", "A", true, some 1000⟩]
          []).schedCalls =
        ([⟨"a", "A", true, some 1000⟩] : List Task).flatMap
          (fun t => computeDesiredEvents t.id t.title (leadOf 0 t)) ∧
      (syncNotifications (fun _ => some "h") true 0 [⟨"a", "A", true, some 1000⟩]
          []).cancelCalls = [] ∧
      ∀ t ∈ [(⟨"a", "A", true, some 1000⟩ : Task)],
        (ledgerLookup (syncNotifications (fun _ => some "h") true 0
            [⟨"a", "A", true, some 1000⟩] []).ledger t.id).isSome = true :=
  C10_clear_then_duplicate_schedules (fun _ => some "h") 0
    [⟨"a", "A", true, some 1000⟩] [("a", "n1")]
    (fun _ => rfl) (by decide) (by decide)

end App
